import Mathlib

/-!
Verification of the key-encoding and transport-safety layer of the RSA
browser application (`src/lib/rsa.ts`).

Bytes are modelled as `Nat` values (always `< 256` where it matters, with
explicit hypotheses), JavaScript strings as `List Char`, and user-facing
text (messages, error messages) as Lean `String`.  The platform functions
`window.btoa` / `window.atob` are modelled after the WHATWG forgiving
base64 specification; `TextEncoder` / `TextDecoder` after the WHATWG
encoding standard (UTF-8, non-fatal mode).  The external cryptographic
provider (`crypto.subtle`) is an opaque collaborator: its per-call outcome
is a parameter (`Except Unit (List Nat)`), with a rejection surfacing to
the orchestration code as a thrown error whose message carries no
plaintext-size information.
-/

namespace RsaSpec

/-- JavaScript regex `\s` character class (used by `replace(/\s/g, "")`). -/
def isJsWs (c : Char) : Bool :=
  let n := c.toNat
  (9 ≤ n && n ≤ 13) || n == 32 || n == 160 || n == 0x1680 ||
  (0x2000 ≤ n && n ≤ 0x200A) || n == 0x2028 || n == 0x2029 ||
  n == 0x202F || n == 0x205F || n == 0x3000 || n == 0xFEFF

/-- ASCII whitespace, stripped by the forgiving-base64 decode of `window.atob`. -/
def isAsciiWs (c : Char) : Bool :=
  c.toNat == 9 || c.toNat == 10 || c.toNat == 12 || c.toNat == 13 || c.toNat == 32

/-- The standard base64 alphabet, in index order. -/
def b64AlphabetList : List Char :=
  ['A','B','C','D','E','F','G','H','I','J','K','L','M',
   'N','O','P','Q','R','S','T','U','V','W','X','Y','Z',
   'a','b','c','d','e','f','g','h','i','j','k','l','m',
   'n','o','p','q','r','s','t','u','v','w','x','y','z',
   '0','1','2','3','4','5','6','7','8','9','+','/']

/-- Character for a 6-bit value (out-of-range values give a junk default). -/
def b64Char (n : Nat) : Char := b64AlphabetList.getD n 'A'

/-- Index of a character in the base64 alphabet, `none` if it is not there. -/
def b64Index (c : Char) : Option Nat := b64AlphabetList.findIdx? (· == c)

/-- Unpadded base64 body of a byte sequence: 4 characters per 3-byte group,
2 or 3 characters for a trailing group of 1 or 2 bytes. -/
def btoaAux : List Nat → List Char
  | [] => []
  | [b0] => [b64Char (b0 / 4), b64Char (b0 % 4 * 16)]
  | [b0, b1] => [b64Char (b0 / 4), b64Char (b0 % 4 * 16 + b1 / 16), b64Char (b1 % 16 * 4)]
  | b0 :: b1 :: b2 :: rest =>
    b64Char (b0 / 4) :: b64Char (b0 % 4 * 16 + b1 / 16) ::
    b64Char (b1 % 16 * 4 + b2 / 64) :: b64Char (b2 % 64) :: btoaAux rest

/-- Padding characters appended by base64 encoding. -/
def btoaPad (l : List Nat) : List Char :=
  match l.length % 3 with
  | 1 => ['=', '=']
  | 2 => ['=']
  | _ => []

/-- Model of `window.btoa` applied to a binary string of the given byte values. -/
def btoa (l : List Nat) : List Char := btoaAux l ++ btoaPad l

/-- Source `arrayBufferToBase64`: builds a binary string from the bytes and
calls `window.btoa` on it. -/
def arrayBufferToBase64 (buffer : List Nat) : List Char := btoa buffer

/-- Step 2 of forgiving-base64 decode: when the length is a multiple of 4,
remove one or two trailing `=` characters. -/
def stripPad (s : List Char) : List Char :=
  if s.length % 4 = 0 then
    if s.reverse.take 2 = ['=', '='] then (s.reverse.drop 2).reverse
    else if s.reverse.take 1 = ['='] then (s.reverse.drop 1).reverse
    else s
  else s

/-- Map every character to its alphabet index; fail if any character is
outside the alphabet. -/
def mapIndex : List Char → Option (List Nat)
  | [] => some []
  | c :: r =>
    match b64Index c, mapIndex r with
    | some v, some vs => some (v :: vs)
    | _, _ => none

/-- Bit reassembly of forgiving-base64 decode: each full group of four 6-bit
values yields 3 bytes; a trailing group of two or three values yields 1 or 2
bytes (the leftover bits are discarded). -/
def decode4 : List Nat → List Nat
  | v0 :: v1 :: v2 :: v3 :: rest =>
    (v0 * 4 + v1 / 16) :: (v1 % 16 * 16 + v2 / 4) :: (v2 % 4 * 64 + v3) :: decode4 rest
  | [v0, v1] => [v0 * 4 + v1 / 16]
  | [v0, v1, v2] => [v0 * 4 + v1 / 16, v1 % 16 * 16 + v2 / 4]
  | _ => []

/-- Model of `window.atob` (WHATWG forgiving-base64 decode); `none` models the
thrown `InvalidCharacterError`. -/
def atob (data : List Char) : Option (List Nat) :=
  if (stripPad (data.filter (fun c => !(isAsciiWs c)))).length % 4 = 1 then none
  else
    match mapIndex (stripPad (data.filter (fun c => !(isAsciiWs c)))) with
    | none => none
    | some vs => some (decode4 vs)

/-- Source `base64ToArrayBuffer`: `window.atob` then the byte values of the
resulting binary string. -/
def base64ToArrayBuffer (base64 : List Char) : Option (List Nat) := atob base64

/-- Helper for `wrap64`: copy characters, inserting a newline before the
next character whenever the per-line counter reaches zero. -/
def wrap64Aux : Nat → List Char → List Char
  | _, [] => []
  | 0, c :: rest => '\n' :: c :: wrap64Aux 63 rest
  | k + 1, c :: rest => c :: wrap64Aux k rest

/-- Fixed-width line wrapping of the PEM body: the source computes
`b64.match(/.{1,64}/g)?.join("\n") || b64`, i.e. chunks of 64 characters
joined by newlines (the empty body stays empty). -/
def wrap64 (l : List Char) : List Char := wrap64Aux 64 l

/-- Literal part of the BEGIN delimiter regex `-----BEGIN [^-]+-----`. -/
def beginLit : List Char := "-----BEGIN ".data

/-- Literal part of the END delimiter regex `-----END [^-]+-----`. -/
def endLit : List Char := "-----END ".data

/-- Closing dashes of each delimiter. -/
def dashes : List Char := "-----".data

/-- Full BEGIN delimiter for a label. -/
def beginMarker (label : List Char) : List Char := beginLit ++ label ++ dashes

/-- Full END delimiter for a label. -/
def endMarker (label : List Char) : List Char := endLit ++ label ++ dashes

/-- PEM text assembled by the two export functions: header + newline,
wrapped base64 body, newline + footer. -/
def pemFrame (label : List Char) (der : List Nat) : List Char :=
  (beginMarker label ++ ['\n']) ++ wrap64 (arrayBufferToBase64 der) ++
    (['\n'] ++ endMarker label)

/-- Source `exportPublicKeyToPEM`, applied to the SPKI DER bytes the provider
exports for the key. -/
def exportPublicKeyToPEM (spki : List Nat) : List Char :=
  pemFrame ("PUBLIC KEY".data) spki

/-- Source `exportPrivateKeyToPEM`, applied to the PKCS#8 DER bytes the
provider exports for the key. -/
def exportPrivateKeyToPEM (pkcs8 : List Nat) : List Char :=
  pemFrame ("PRIVATE KEY".data) pkcs8

/-- Attempted match of the delimiter regex `lit ++ [^-]+ ++ "-----"` at the
start of `s`; returns the matched length.  The greedy `[^-]+` run is maximal,
and since every character inside a shorter run is not a dash, backtracking
cannot produce another match, so this is exactly the JavaScript semantics. -/
def tryMatchLen (lit s : List Char) : Option Nat :=
  if lit.isPrefixOf s then
    let r := s.drop lit.length
    let run := r.takeWhile (fun c => c != '-')
    if run ≠ [] ∧ dashes.isPrefixOf (r.drop run.length) then
      some (lit.length + run.length + 5)
    else none
  else none

/-- JavaScript `String.replace` with a non-global regex and empty replacement:
deletes the leftmost match, scanning start positions left to right. -/
def replaceFirst (lit : List Char) : List Char → List Char
  | [] => []
  | c :: rest =>
    match tryMatchLen lit (c :: rest) with
    | some n => (c :: rest).drop n
    | none => c :: replaceFirst lit rest

/-- Source `pemToArrayBuffer`: strip the first BEGIN delimiter, the first END
delimiter and every `\s` character, then base64-decode what is left. -/
def pemToArrayBuffer (pem : List Char) : Option (List Nat) :=
  base64ToArrayBuffer
    ((replaceFirst endLit (replaceFirst beginLit pem)).filter (fun c => !(isJsWs c)))

/-- Source `importPublicKey`: PEM to DER, then the provider import call
(`crypto.subtle.importKey("spki", ...)`), whose outcome on the resulting DER
is the `providerImport` parameter.  A `none` from `pemToArrayBuffer`
propagates (there is no catch in the source). -/
def importPublicKey {α : Type} (providerImport : List Nat → Except Unit α)
    (pem : List Char) : Except Unit α :=
  match pemToArrayBuffer pem with
  | none => Except.error ()
  | some binaryDer => providerImport binaryDer

/-- Source `importPrivateKey`: same shape with
`crypto.subtle.importKey("pkcs8", ...)`. -/
def importPrivateKey {α : Type} (providerImport : List Nat → Except Unit α)
    (pem : List Char) : Except Unit α :=
  match pemToArrayBuffer pem with
  | none => Except.error ()
  | some binaryDer => providerImport binaryDer

/-- Digest size switch from `encryptWithPublicKey` (a `switch` on
`keyAlg.hash.name` with default 32). -/
def hashLengthBytes (hashName : String) : Nat :=
  if hashName = "SHA-1" then 20
  else if hashName = "SHA-256" then 32
  else if hashName = "SHA-384" then 48
  else if hashName = "SHA-512" then 64
  else 32

/-- OAEP budget computed in `encryptWithPublicKey`:
`modulusLength / 8 - 2 * hashLengthBytes - 2`.  Total, may be negative. -/
def maxMessageLength (modulusLength : Nat) (hashName : String) : Int :=
  ((modulusLength / 8 : Nat) : Int) - 2 * (hashLengthBytes hashName : Int) - 2

/-- Modelled from the spec: the `digestSize` table of section 4.4
(SHA-1:20, SHA-256:32, SHA-384:48, SHA-512:64, unknown defaults to 32). -/
def digestSize (hashAlgorithm : String) : Nat :=
  if hashAlgorithm = "SHA-1" then 20
  else if hashAlgorithm = "SHA-256" then 32
  else if hashAlgorithm = "SHA-384" then 48
  else if hashAlgorithm = "SHA-512" then 64
  else 32

/-- Modelled from the spec: the reference formula
`modulusBytes - 2*hashBytes - 2` of section 4.4. -/
def maxPlaintextBytes (modulusLengthBits : Nat) (hashAlgorithm : String) : Int :=
  ((modulusLengthBits / 8 : Nat) : Int) - 2 * (digestSize hashAlgorithm : Int) - 2

/-- UTF-8 encoding of one scalar value (`TextEncoder` model). -/
def utf8EncodeChar (c : Char) : List Nat :=
  let n := c.toNat
  if n < 0x80 then [n]
  else if n < 0x800 then [0xC0 + n / 64, 0x80 + n % 64]
  else if n < 0x10000 then [0xE0 + n / 4096, 0x80 + n / 64 % 64, 0x80 + n % 64]
  else [0xF0 + n / 0x40000, 0x80 + n / 4096 % 64, 0x80 + n / 64 % 64, 0x80 + n % 64]

/-- Model of `new TextEncoder().encode(message)`. -/
def utf8Bytes (message : String) : List Nat := message.data.flatMap utf8EncodeChar

/-- Is a byte a UTF-8 continuation byte. -/
def isCont (b : Nat) : Bool := 0x80 ≤ b && b ≤ 0xBF

/-- The replacement character U+FFFD. -/
def replChar : Char := Char.ofNat 0xFFFD

/-- Model of the WHATWG UTF-8 decoder in its default non-fatal mode
(`new TextDecoder().decode`): malformed subsequences become U+FFFD using
maximal-subpart replacement; the function never fails.  The fuel argument
only serves structural recursion: every step consumes at least one byte, so
fuel equal to the length of the input always suffices. -/
def utf8DecodeLossyAux : Nat → List Nat → List Char
  | 0, _ => []
  | _ + 1, [] => []
  | fuel + 1, b :: rest =>
    if b < 0x80 then Char.ofNat b :: utf8DecodeLossyAux fuel rest
    else if b < 0xC2 then replChar :: utf8DecodeLossyAux fuel rest
    else if b < 0xE0 then
      match rest with
      | [] => [replChar]
      | b1 :: rest1 =>
        if isCont b1 then
          Char.ofNat ((b - 0xC0) * 64 + (b1 - 0x80)) :: utf8DecodeLossyAux fuel rest1
        else replChar :: utf8DecodeLossyAux fuel rest
    else if b < 0xF0 then
      match rest with
      | [] => [replChar]
      | b1 :: rest1 =>
        if (if b = 0xE0 then 0xA0 else 0x80) ≤ b1 ∧ b1 ≤ (if b = 0xED then 0x9F else 0xBF) then
          match rest1 with
          | [] => [replChar]
          | b2 :: rest2 =>
            if isCont b2 then
              Char.ofNat ((b - 0xE0) * 4096 + (b1 - 0x80) * 64 + (b2 - 0x80)) ::
                utf8DecodeLossyAux fuel rest2
            else replChar :: utf8DecodeLossyAux fuel rest1
        else replChar :: utf8DecodeLossyAux fuel rest
    else if b < 0xF5 then
      match rest with
      | [] => [replChar]
      | b1 :: rest1 =>
        if (if b = 0xF0 then 0x90 else 0x80) ≤ b1 ∧ b1 ≤ (if b = 0xF4 then 0x8F else 0xBF) then
          match rest1 with
          | [] => [replChar]
          | b2 :: rest2 =>
            if isCont b2 then
              match rest2 with
              | [] => [replChar]
              | b3 :: rest3 =>
                if isCont b3 then
                  Char.ofNat ((b - 0xF0) * 0x40000 + (b1 - 0x80) * 4096 +
                      (b2 - 0x80) * 64 + (b3 - 0x80)) :: utf8DecodeLossyAux fuel rest3
                else replChar :: utf8DecodeLossyAux fuel rest2
            else replChar :: utf8DecodeLossyAux fuel rest1
        else replChar :: utf8DecodeLossyAux fuel rest
    else replChar :: utf8DecodeLossyAux fuel rest

/-- Model of `new TextDecoder().decode(decrypted)`. -/
def textDecode (bytes : List Nat) : String :=
  String.mk (utf8DecodeLossyAux bytes.length bytes)

/-- Modelled from the spec: strict UTF-8 validity of a byte sequence (the
spec's "valid text" in the `InvalidUtf8Error` clause).  Same structure as
the lossy decoder, but any malformed subsequence makes the whole input
invalid. -/
def utf8Valid : List Nat → Bool
  | [] => true
  | b :: rest =>
    if b < 0x80 then utf8Valid rest
    else if b < 0xC2 then false
    else if b < 0xE0 then
      match rest with
      | [] => false
      | b1 :: rest1 => isCont b1 && utf8Valid rest1
    else if b < 0xF0 then
      match rest with
      | [] => false
      | b1 :: rest1 =>
        match rest1 with
        | [] => false
        | b2 :: rest2 =>
          decide ((if b = 0xE0 then 0xA0 else 0x80) ≤ b1 ∧
              b1 ≤ (if b = 0xED then 0x9F else 0xBF)) && isCont b2 && utf8Valid rest2
    else if b < 0xF5 then
      match rest with
      | [] => false
      | b1 :: rest1 =>
        match rest1 with
        | [] => false
        | b2 :: rest2 =>
          match rest2 with
          | [] => false
          | b3 :: rest3 =>
            decide ((if b = 0xF0 then 0x90 else 0x80) ≤ b1 ∧
                b1 ≤ (if b = 0xF4 then 0x8F else 0xBF)) && isCont b2 && isCont b3 &&
              utf8Valid rest3
    else false

/-- Key algorithm profile read from `publicKey.algorithm`
(`RsaHashedKeyAlgorithm`). -/
structure RsaHashedKeyAlgorithm where
  modulusLength : Nat
  hashName : String

/-- Message of the size-check error thrown by `encryptWithPublicKey`. -/
def tooLongMessage (max : Int) (actual : Nat) : String :=
  "Message is too long for the given key size. Maximum allowed is " ++
    toString max ++ " bytes, but got " ++ toString actual ++ " bytes."

/-- Generic message of the catch-all encryption error. -/
def encryptionFailedMessage : String :=
  "Encryption failed. Please verify that you are using the correct public key and that your message is valid."

/-- Generic message of the catch-all decryption error. -/
def decryptionFailedMessage : String :=
  "Decryption failed. Please verify that you are using the correct private key and that the ciphertext is valid."

/-- Message of the `OperationError` DOMException a `crypto.subtle` encrypt or
decrypt call rejects with; it carries no information about the plaintext. -/
def operationErrorMessage : String :=
  "The operation failed for an operation-specific reason"

/-- Concrete 191-byte ASCII message, one byte over the 2048-bit SHA-256
budget; used as a witness input. -/
def longMessage : String := String.mk (List.replicate 191 'a')

/-- Boolean substring test (JavaScript `String.includes`). -/
def containsSub (pat : List Char) : List Char → Bool
  | [] => pat.isEmpty
  | c :: r => pat.isPrefixOf (c :: r) || containsSub pat r

/-- Body of the `try` block of `encryptWithPublicKey`: UTF-8 encode the
message, compute the budget, throw the size error when the data is too
large, otherwise run the provider encrypt call (its outcome is the
`providerEncrypt` parameter) and base64-encode the result. -/
def encryptBody (keyAlg : RsaHashedKeyAlgorithm)
    (providerEncrypt : Except Unit (List Nat)) (message : String) :
    Except String (List Char) :=
  if ((utf8Bytes message).length : Int) >
      maxMessageLength keyAlg.modulusLength keyAlg.hashName then
    Except.error (tooLongMessage (maxMessageLength keyAlg.modulusLength keyAlg.hashName)
      (utf8Bytes message).length)
  else
    match providerEncrypt with
    | Except.error _ => Except.error operationErrorMessage
    | Except.ok encrypted => Except.ok (arrayBufferToBase64 encrypted)

/-- Source `encryptWithPublicKey`: the `try` body above, with the `catch`
clause rethrowing an error whose message includes "Message is too long" and
replacing every other error by the generic encryption failure. -/
def encryptWithPublicKey (keyAlg : RsaHashedKeyAlgorithm)
    (providerEncrypt : Except Unit (List Nat)) (message : String) :
    Except String (List Char) :=
  match encryptBody keyAlg providerEncrypt message with
  | Except.ok s => Except.ok s
  | Except.error msg =>
    if containsSub ("Message is too long".data) msg.data then Except.error msg
    else Except.error encryptionFailedMessage

/-- Body of the `try` block of `decryptWithPrivateKey`: base64-decode the
ciphertext (a failed `atob` throws `InvalidCharacterError`), run the
provider decrypt call on the bytes (the `providerDecrypt` oracle stands for
the private key together with `crypto.subtle.decrypt`), then decode the
result with the non-fatal `TextDecoder`. -/
def decryptBody (providerDecrypt : List Nat → Except Unit (List Nat))
    (ciphertext : List Char) : Except String String :=
  match base64ToArrayBuffer ciphertext with
  | none => Except.error "InvalidCharacterError"
  | some data =>
    match providerDecrypt data with
    | Except.error _ => Except.error operationErrorMessage
    | Except.ok decrypted => Except.ok (textDecode decrypted)

/-- Source `decryptWithPrivateKey`: the `try` body above with a catch-all
that replaces every error by the generic decryption failure. -/
def decryptWithPrivateKey (providerDecrypt : List Nat → Except Unit (List Nat))
    (ciphertext : List Char) : Except String String :=
  match decryptBody providerDecrypt ciphertext with
  | Except.ok s => Except.ok s
  | Except.error _ => Except.error decryptionFailedMessage

end RsaSpec

namespace RsaSpec

/-! ### Helper lemmas: base64 round trip -/

theorem isPrefixOf_append_self (l r : List Char) : l.isPrefixOf (l ++ r) = true := by
  induction l with
  | nil => simp [List.isPrefixOf]
  | cons c t ih => simp [List.isPrefixOf, ih]

theorem b64Char_mem (n : Nat) : b64Char n ∈ b64AlphabetList := by
  unfold b64Char List.getD
  rcases h : b64AlphabetList.get? n with _ | c
  · decide
  · simp only [Option.getD_some]
    have h2 : b64AlphabetList[n]? = some c := by
      rw [← List.get?_eq_getElem?]
      exact h
    exact List.getElem?_mem h2

theorem b64Alphabet_props :
    ∀ c ∈ b64AlphabetList,
      c ≠ '=' ∧ c ≠ '-' ∧ isJsWs c = false ∧ isAsciiWs c = false := by decide

theorem btoaAux_cons3 (b0 b1 b2 : Nat) (rest : List Nat) :
    btoaAux (b0 :: b1 :: b2 :: rest) =
      [b64Char (b0 / 4), b64Char (b0 % 4 * 16 + b1 / 16),
       b64Char (b1 % 16 * 4 + b2 / 64), b64Char (b2 % 64)] ++ btoaAux rest := rfl

theorem btoaPad_cons3 (b0 b1 b2 : Nat) (rest : List Nat) :
    btoaPad (b0 :: b1 :: b2 :: rest) = btoaPad rest := by
  unfold btoaPad
  have h : (b0 :: b1 :: b2 :: rest).length % 3 = rest.length % 3 := by
    simp only [List.length_cons]
    omega
  rw [h]

theorem btoa_cons3 (b0 b1 b2 : Nat) (rest : List Nat) :
    btoa (b0 :: b1 :: b2 :: rest) =
      [b64Char (b0 / 4), b64Char (b0 % 4 * 16 + b1 / 16),
       b64Char (b1 % 16 * 4 + b2 / 64), b64Char (b2 % 64)] ++ btoa rest := by
  unfold btoa
  rw [btoaAux_cons3, btoaPad_cons3, List.append_assoc]

theorem btoaPad_cases (l : List Nat) :
    btoaPad l = [] ∨ btoaPad l = ['='] ∨ btoaPad l = ['=', '='] := by
  unfold btoaPad
  rcases h : l.length % 3 with _ | _ | k
  · left; rfl
  · right; right; rfl
  · rcases k with _ | k2
    · right; left; rfl
    · left; rfl

theorem mem_btoaAux {c : Char} {l : List Nat} (h : c ∈ btoaAux l) :
    c ∈ b64AlphabetList := by
  induction l using btoaAux.induct with
  | case1 => simp [btoaAux] at h
  | case2 b0 =>
    unfold btoaAux at h
    simp only [List.mem_cons, List.not_mem_nil, or_false] at h
    rcases h with h | h <;> exact h ▸ b64Char_mem _
  | case3 b0 b1 =>
    unfold btoaAux at h
    simp only [List.mem_cons, List.not_mem_nil, or_false] at h
    rcases h with h | h | h <;> exact h ▸ b64Char_mem _
  | case4 b0 b1 b2 rest ih =>
    rw [btoaAux_cons3] at h
    rcases List.mem_append.mp h with h | h
    · simp only [List.mem_cons, List.not_mem_nil, or_false] at h
      rcases h with h | h | h | h <;> exact h ▸ b64Char_mem _
    · exact ih h

theorem mem_btoa {c : Char} {l : List Nat} (h : c ∈ btoa l) :
    c ∈ b64AlphabetList ∨ c = '=' := by
  unfold btoa at h
  rcases List.mem_append.mp h with h | h
  · exact Or.inl (mem_btoaAux h)
  · right
    rcases btoaPad_cases l with hp | hp | hp <;> rw [hp] at h <;> simp_all

theorem btoa_not_ws {c : Char} {l : List Nat} (h : c ∈ btoa l) : isAsciiWs c = false := by
  rcases mem_btoa h with h | h
  · exact (b64Alphabet_props c h).2.2.2
  · subst h
    decide

theorem btoaAux_no_eq {c : Char} {l : List Nat} (h : c ∈ btoaAux l) : c ≠ '=' :=
  (b64Alphabet_props c (mem_btoaAux h)).1

theorem btoaAux_mod4 (l : List Nat) : (btoaAux l).length % 4 ≠ 1 := by
  induction l using btoaAux.induct with
  | case1 => simp [btoaAux]
  | case2 b0 =>
    have h : (btoaAux [b0]).length = 2 := rfl
    omega
  | case3 b0 b1 =>
    have h : (btoaAux [b0, b1]).length = 3 := rfl
    omega
  | case4 b0 b1 b2 rest ih =>
    rw [btoaAux_cons3]
    simp only [List.length_append, List.length_cons, List.length_nil]
    omega

theorem btoa_mod4 (l : List Nat) : (btoa l).length % 4 = 0 := by
  induction l using btoaAux.induct with
  | case1 => rfl
  | case2 b0 =>
    have h : (btoa [b0]).length = 4 := rfl
    omega
  | case3 b0 b1 =>
    have h : (btoa [b0, b1]).length = 4 := rfl
    omega
  | case4 b0 b1 b2 rest ih =>
    rw [btoa_cons3]
    simp only [List.length_append, List.length_cons, List.length_nil]
    omega

theorem stripPad_of_no_eq (s : List Char) (h : ∀ c ∈ s, c ≠ '=') : stripPad s = s := by
  unfold stripPad
  rcases hr : s.reverse with _ | ⟨c, r⟩
  · simp
  · have hc : c ≠ '=' := by
      apply h
      rw [← List.mem_reverse, hr]
      exact List.mem_cons_self c r
    have h2 : ¬ ((c :: r).take 2 = ['=', '=']) := by
      rcases r with _ | ⟨c2, r2⟩ <;> simp <;> intro he <;> exact absurd he hc
    have h1 : ¬ ((c :: r).take 1 = ['=']) := by
      simp
      intro he
      exact absurd he hc
    simp [h2, h1]
    intro hlen
    rw [if_neg (fun hand => hc hand.1), if_neg hc]

theorem btoaAux_ne_nil {l : List Nat} (h : l ≠ []) : btoaAux l ≠ [] := by
  rcases l with _ | ⟨b0, _ | ⟨b1, _ | ⟨b2, rest⟩⟩⟩ <;> simp_all [btoaAux]

theorem stripPad_btoa (l : List Nat) : stripPad (btoa l) = btoaAux l := by
  have h4 : (btoa l).length % 4 = 0 := btoa_mod4 l
  rcases hm : l.length % 3 with _ | _ | k
  · have hpad : btoaPad l = [] := by unfold btoaPad; rw [hm]
    have hb : btoa l = btoaAux l := by unfold btoa; rw [hpad]; simp
    rw [hb]
    exact stripPad_of_no_eq _ (fun c hc => btoaAux_no_eq hc)
  · have hpad : btoaPad l = ['=', '='] := by unfold btoaPad; rw [hm]
    have hb : btoa l = btoaAux l ++ ['=', '='] := by unfold btoa; rw [hpad]
    rw [hb] at h4 ⊢
    unfold stripPad
    rw [if_pos h4]
    simp [List.reverse_append]
  · have hpad : btoaPad l = ['='] := by
      unfold btoaPad
      rw [hm]
      rcases k with _ | k2
      · rfl
      · exfalso
        have := Nat.mod_lt l.length (show 0 < 3 by decide)
        omega
    have hb : btoa l = btoaAux l ++ ['='] := by unfold btoa; rw [hpad]
    have hlnil : l ≠ [] := by
      intro he
      rw [he] at hm
      simp at hm
    have hxnil : btoaAux l ≠ [] := btoaAux_ne_nil hlnil
    rcases hx : (btoaAux l).reverse with _ | ⟨c, r⟩
    · exact absurd (List.reverse_eq_nil_iff.mp hx) hxnil
    · have hc : c ≠ '=' := by
        apply btoaAux_no_eq (l := l)
        rw [← List.mem_reverse, hx]
        exact List.mem_cons_self c r
      rw [hb] at h4 ⊢
      unfold stripPad
      rw [if_pos h4]
      have hrev : (btoaAux l ++ ['=']).reverse = '=' :: c :: r := by
        rw [List.reverse_append, hx]
        rfl
      rw [hrev]
      have hne : ¬ (('=' :: c :: r).take 2 = ['=', '=']) := by
        simp
        intro he
        exact absurd he hc
      rw [if_neg hne]
      have ht : ('=' :: c :: r).take 1 = ['='] := rfl
      rw [if_pos ht]
      have hd : ('=' :: c :: r).drop 1 = c :: r := rfl
      rw [hd, ← hx, List.reverse_reverse]
theorem b64Index_b64Char : ∀ n, n < 64 → b64Index (b64Char n) = some n := by decide

theorem mapIndex_decode_btoaAux (l : List Nat) :
    (∀ x ∈ l, x < 256) → (mapIndex (btoaAux l)).map decode4 = some l := by
  induction l using btoaAux.induct with
  | case1 => intro _; rfl
  | case2 b0 =>
    intro hb
    have h0 : b0 < 256 := hb b0 (by simp)
    have i0 : b64Index (b64Char (b0 / 4)) = some (b0 / 4) :=
      b64Index_b64Char _ (by omega)
    have i1 : b64Index (b64Char (b0 % 4 * 16)) = some (b0 % 4 * 16) :=
      b64Index_b64Char _ (by omega)
    unfold btoaAux
    simp only [mapIndex, i0, i1]
    simp [decode4]
    omega
  | case3 b0 b1 =>
    intro hb
    have h0 : b0 < 256 := hb b0 (by simp)
    have h1 : b1 < 256 := hb b1 (by simp)
    have i0 : b64Index (b64Char (b0 / 4)) = some (b0 / 4) :=
      b64Index_b64Char _ (by omega)
    have i1 : b64Index (b64Char (b0 % 4 * 16 + b1 / 16)) = some (b0 % 4 * 16 + b1 / 16) :=
      b64Index_b64Char _ (by omega)
    have i2 : b64Index (b64Char (b1 % 16 * 4)) = some (b1 % 16 * 4) :=
      b64Index_b64Char _ (by omega)
    unfold btoaAux
    simp only [mapIndex, i0, i1, i2]
    simp [decode4]
    constructor
    · omega
    · omega
  | case4 b0 b1 b2 rest ih =>
    intro hb
    have h0 : b0 < 256 := hb b0 (by simp)
    have h1 : b1 < 256 := hb b1 (by simp)
    have h2 : b2 < 256 := hb b2 (by simp)
    have hrest : ∀ x ∈ rest, x < 256 := fun x hx => hb x (by simp [hx])
    have ih2 := ih hrest
    have i0 : b64Index (b64Char (b0 / 4)) = some (b0 / 4) :=
      b64Index_b64Char _ (by omega)
    have i1 : b64Index (b64Char (b0 % 4 * 16 + b1 / 16)) = some (b0 % 4 * 16 + b1 / 16) :=
      b64Index_b64Char _ (by omega)
    have i2 : b64Index (b64Char (b1 % 16 * 4 + b2 / 64)) = some (b1 % 16 * 4 + b2 / 64) :=
      b64Index_b64Char _ (by omega)
    have i3 : b64Index (b64Char (b2 % 64)) = some (b2 % 64) :=
      b64Index_b64Char _ (by omega)
    rcases hm : mapIndex (btoaAux rest) with _ | vs
    · rw [hm] at ih2
      exact Option.noConfusion ih2
    · rw [hm] at ih2
      have hvs : decode4 vs = rest := Option.some.inj ih2
      rw [btoaAux_cons3]
      show (mapIndex (b64Char (b0 / 4) :: b64Char (b0 % 4 * 16 + b1 / 16) ::
          b64Char (b1 % 16 * 4 + b2 / 64) :: b64Char (b2 % 64) :: btoaAux rest)).map decode4
          = some (b0 :: b1 :: b2 :: rest)
      simp only [mapIndex, i0, i1, i2, i3, hm]
      simp [decode4, hvs]
      refine ⟨by omega, by omega, by omega⟩

theorem atob_btoa (l : List Nat) (hb : ∀ x ∈ l, x < 256) : atob (btoa l) = some l := by
  unfold atob
  have hfil : (btoa l).filter (fun c => !(isAsciiWs c)) = btoa l :=
    List.filter_eq_self.mpr (fun c hc => by simp [btoa_not_ws hc])
  rw [hfil, stripPad_btoa, if_neg (btoaAux_mod4 l)]
  have h := mapIndex_decode_btoaAux l hb
  rcases hm : mapIndex (btoaAux l) with _ | vs
  · rw [hm] at h
    exact Option.noConfusion h
  · rw [hm] at h
    exact h

/-! ### Helper lemmas: PEM framing and unframing -/

theorem mem_wrap64Aux {c : Char} :
    ∀ (k : Nat) (l : List Char), c ∈ wrap64Aux k l → c ∈ l ∨ c = '\n' := by
  intro k l
  induction l generalizing k with
  | nil => intro h; simp [wrap64Aux] at h
  | cons d rest ih =>
    intro h
    rcases k with _ | k2
    · unfold wrap64Aux at h
      simp only [List.mem_cons] at h
      rcases h with h | h | h
      · right; exact h
      · left; simp [h]
      · rcases ih 63 h with h2 | h2
        · left; simp [h2]
        · right; exact h2
    · unfold wrap64Aux at h
      simp only [List.mem_cons] at h
      rcases h with h | h
      · left; simp [h]
      · rcases ih k2 h with h2 | h2
        · left; simp [h2]
        · right; exact h2

theorem filter_wrap64Aux (p : Char → Bool) (hnl : p '\n' = false) :
    ∀ (k : Nat) (l : List Char), (wrap64Aux k l).filter p = l.filter p := by
  intro k l
  induction l generalizing k with
  | nil => rcases k with _ | k2 <;> rfl
  | cons d rest ih =>
    rcases k with _ | k2
    · show (('\n' :: d :: wrap64Aux 63 rest).filter p) = (d :: rest).filter p
      simp [List.filter_cons, hnl, ih 63]
    · show ((d :: wrap64Aux k2 rest).filter p) = (d :: rest).filter p
      simp [List.filter_cons, ih k2]

theorem mem_wrap64 {c : Char} {l : List Char} (h : c ∈ wrap64 l) : c ∈ l ∨ c = '\n' :=
  mem_wrap64Aux 64 l h

theorem filter_wrap64 (p : Char → Bool) (hnl : p '\n' = false) (l : List Char) :
    (wrap64 l).filter p = l.filter p :=
  filter_wrap64Aux p hnl 64 l

theorem tryMatchLen_none_head (lit : List Char) (c : Char) (rest : List Char)
    (hlit : ∃ t, lit = '-' :: t) (hc : c ≠ '-') : tryMatchLen lit (c :: rest) = none := by
  rcases hlit with ⟨t, ht⟩
  subst ht
  have hpre : ('-' :: t).isPrefixOf (c :: rest) = false := by
    show (('-' == c) && t.isPrefixOf rest) = false
    have : ('-' == c) = false := by
      rw [beq_eq_false_iff_ne]
      exact fun he => hc he.symm
    rw [this, Bool.false_and]
  unfold tryMatchLen
  rw [hpre]
  simp

theorem replaceFirst_cons (lit : List Char) (c : Char) (rest : List Char) :
    replaceFirst lit (c :: rest) =
      match tryMatchLen lit (c :: rest) with
      | some n => (c :: rest).drop n
      | none => c :: replaceFirst lit rest := rfl

theorem replaceFirst_append_no_dash (lit p s : List Char)
    (hlit : ∃ t, lit = '-' :: t) (hp : ∀ c ∈ p, c ≠ '-') :
    replaceFirst lit (p ++ s) = p ++ replaceFirst lit s := by
  induction p with
  | nil => rfl
  | cons c pr ih =>
    have hc : c ≠ '-' := hp c (by simp)
    have hpr : ∀ x ∈ pr, x ≠ '-' := fun x hx => hp x (by simp [hx])
    show replaceFirst lit (c :: (pr ++ s)) = c :: (pr ++ replaceFirst lit s)
    rw [replaceFirst_cons, tryMatchLen_none_head lit c _ hlit hc]
    show c :: replaceFirst lit (pr ++ s) = c :: (pr ++ replaceFirst lit s)
    rw [ih hpr]

theorem takeWhile_no_dash (label rest : List Char) (hd : ∀ c ∈ label, c ≠ '-') :
    (label ++ '-' :: rest).takeWhile (fun c => c != '-') = label := by
  induction label with
  | nil => simp
  | cons c t ih =>
    have hc : c ≠ '-' := hd c (by simp)
    have ht : ∀ x ∈ t, x ≠ '-' := fun x hx => hd x (by simp [hx])
    show ((c :: (t ++ '-' :: rest)).takeWhile (fun c => c != '-')) = c :: t
    rw [List.takeWhile_cons]
    have : (c != '-') = true := by
      rw [bne_iff_ne]
      exact hc
    rw [this]
    simp [ih ht]

theorem tryMatchLen_exact (lit label t : List Char) (hl : label ≠ [])
    (hd : ∀ c ∈ label, c ≠ '-') :
    tryMatchLen lit (lit ++ (label ++ (dashes ++ t)))
      = some (lit.length + label.length + 5) := by
  unfold tryMatchLen
  rw [isPrefixOf_append_self]
  simp only [if_true, List.drop_left]
  have hsplit : label ++ (dashes ++ t) = label ++ '-' :: ("----".data ++ t) := rfl
  rw [hsplit, takeWhile_no_dash label _ hd]
  have hdrop : (label ++ '-' :: ("----".data ++ t)).drop label.length
      = '-' :: ("----".data ++ t) := List.drop_left label _
  rw [hdrop]
  have hpre : dashes.isPrefixOf ('-' :: ("----".data ++ t)) = true := by
    show dashes.isPrefixOf (dashes ++ t) = true
    exact isPrefixOf_append_self dashes t
  rw [if_pos ⟨hl, hpre⟩]

theorem replaceFirst_of_match (lit s : List Char) (n : Nat)
    (hs : s ≠ []) (h : tryMatchLen lit s = some n) : replaceFirst lit s = s.drop n := by
  rcases s with _ | ⟨c, rest⟩
  · exact absurd rfl hs
  · unfold replaceFirst
    rw [h]

theorem beginMarker_assoc (label mid : List Char) :
    beginMarker label ++ (mid) = beginLit ++ (label ++ (dashes ++ mid)) := by
  unfold beginMarker
  simp [List.append_assoc]

theorem endMarker_assoc (label : List Char) :
    endMarker label = endLit ++ (label ++ (dashes ++ [])) := by
  unfold endMarker
  simp [List.append_assoc]

theorem pem_unframe (label mid : List Char) (hl : label ≠ [])
    (hld : ∀ c ∈ label, c ≠ '-') (hmd : ∀ c ∈ mid, c ≠ '-') :
    pemToArrayBuffer (beginMarker label ++ (mid ++ endMarker label))
      = atob (mid.filter (fun c => !(isJsWs c))) := by
  unfold pemToArrayBuffer base64ToArrayBuffer
  have h1 : tryMatchLen beginLit (beginMarker label ++ (mid ++ endMarker label))
      = some (beginLit.length + label.length + 5) := by
    rw [beginMarker_assoc]
    exact tryMatchLen_exact beginLit label _ hl hld
  have hne : beginMarker label ++ (mid ++ endMarker label) ≠ [] := by
    unfold beginMarker beginLit
    simp
  have hlen : beginLit.length + label.length + 5 = (beginMarker label).length := by
    unfold beginMarker beginLit dashes
    simp
    omega
  rw [replaceFirst_of_match _ _ _ hne h1, hlen, List.drop_left]
  have hlit2 : ∃ t, endLit = '-' :: t := ⟨"----END ".data, rfl⟩
  rw [replaceFirst_append_no_dash endLit mid (endMarker label) hlit2 hmd]
  have h2 : tryMatchLen endLit (endMarker label)
      = some (endLit.length + label.length + 5) := by
    rw [endMarker_assoc]
    exact tryMatchLen_exact endLit label [] hl hld
  have hne2 : endMarker label ≠ [] := by
    unfold endMarker endLit
    simp
  have hlen2 : endLit.length + label.length + 5 = (endMarker label).length := by
    unfold endMarker endLit dashes
    simp
    omega
  rw [replaceFirst_of_match _ _ _ hne2 h2, hlen2, List.drop_length, List.append_nil]

theorem btoa_no_dash {c : Char} {l : List Nat} (h : c ∈ btoa l) : c ≠ '-' := by
  rcases mem_btoa h with h | h
  · exact (b64Alphabet_props c h).2.1
  · subst h
    decide

theorem btoa_not_jsws {c : Char} {l : List Nat} (h : c ∈ btoa l) : isJsWs c = false := by
  rcases mem_btoa h with h | h
  · exact (b64Alphabet_props c h).2.2.1
  · subst h
    decide

theorem pemFrame_shape (label : List Char) (der : List Nat) :
    pemFrame label der = beginMarker label ++
      (('\n' :: (wrap64 (arrayBufferToBase64 der) ++ ['\n'])) ++ endMarker label) := by
  unfold pemFrame
  simp [List.append_assoc]

theorem pemFrame_mid_no_dash (der : List Nat) :
    ∀ c ∈ ('\n' :: (wrap64 (arrayBufferToBase64 der) ++ ['\n'])), c ≠ '-' := by
  intro c hc
  simp only [List.mem_cons, List.mem_append] at hc
  rcases hc with h | h | h
  · subst h; decide
  · rcases mem_wrap64 h with h2 | h2
    · exact btoa_no_dash h2
    · subst h2; decide
  · simp at h
    subst h; decide

theorem pemFrame_mid_filter (der : List Nat) :
    ('\n' :: (wrap64 (arrayBufferToBase64 der) ++ ['\n'])).filter (fun c => !(isJsWs c))
      = btoa der := by
  have hnl : (fun c => !(isJsWs c)) '\n' = false := by decide
  show (('\n' :: (wrap64 (btoa der) ++ ['\n'])).filter (fun c => !(isJsWs c))) = btoa der
  rw [List.filter_cons, List.filter_append, filter_wrap64 _ hnl]
  simp only [hnl]
  have h1 : (['\n'] : List Char).filter (fun c => !(isJsWs c)) = [] := by decide
  rw [h1, List.append_nil]
  simp only [Bool.false_eq_true, if_false]
  exact List.filter_eq_self.mpr (fun c hc => by simp [btoa_not_jsws hc])

theorem pemFrame_unframe (label : List Char) (der : List Nat)
    (hl : label ≠ []) (hld : ∀ c ∈ label, c ≠ '-') (hder : ∀ x ∈ der, x < 256) :
    pemToArrayBuffer (pemFrame label der) = some der := by
  rw [pemFrame_shape,
    pem_unframe label _ hl hld (pemFrame_mid_no_dash der),
    pemFrame_mid_filter der]
  exact atob_btoa der hder

/-! ### Helper lemmas: orchestrator error messages -/

theorem containsSub_append_self (pat X : List Char) (h : pat ≠ []) :
    containsSub pat (pat ++ X) = true := by
  rcases pat with _ | ⟨c, t⟩
  · exact absurd rfl h
  · show containsSub (c :: t) (c :: (t ++ X)) = true
    unfold containsSub
    have hpre : (c :: t).isPrefixOf (c :: (t ++ X)) = true := by
      show ((c == c) && t.isPrefixOf (t ++ X)) = true
      rw [beq_self_eq_true, isPrefixOf_append_self, Bool.and_self]
    rw [hpre, Bool.true_or]

theorem tooLongMessage_data (m : Int) (a : Nat) :
    (tooLongMessage m a).data = "Message is too long".data ++
      (" for the given key size. Maximum allowed is " ++ toString m ++
        " bytes, but got " ++ toString a ++ " bytes.").data := by
  have hsplit : ("Message is too long for the given key size. Maximum allowed is " : String)
      = "Message is too long" ++ " for the given key size. Maximum allowed is " := by decide
  unfold tooLongMessage
  rw [hsplit]
  simp [String.data_append, List.append_assoc]

theorem containsSub_tooLong (m : Int) (a : Nat) :
    containsSub ("Message is too long".data) (tooLongMessage m a).data = true := by
  rw [tooLongMessage_data]
  exact containsSub_append_self _ _ (by decide)

theorem tooLong_ne_generic (m : Int) (a : Nat) :
    tooLongMessage m a ≠ encryptionFailedMessage := by
  intro he
  have h1 := containsSub_tooLong m a
  rw [he] at h1
  have h2 : containsSub ("Message is too long".data) encryptionFailedMessage.data
      = false := by decide
  rw [h2] at h1
  exact Bool.noConfusion h1

theorem encryptWithPublicKey_def (keyAlg : RsaHashedKeyAlgorithm)
    (providerEncrypt : Except Unit (List Nat)) (message : String) :
    encryptWithPublicKey keyAlg providerEncrypt message =
      match encryptBody keyAlg providerEncrypt message with
      | Except.ok s => Except.ok s
      | Except.error msg =>
        if containsSub ("Message is too long".data) msg.data then Except.error msg
        else Except.error encryptionFailedMessage := rfl

theorem decryptBody_some (providerDecrypt : List Nat → Except Unit (List Nat))
    (ciphertext : List Char) (data : List Nat)
    (hdata : base64ToArrayBuffer ciphertext = some data) :
    decryptBody providerDecrypt ciphertext =
      match providerDecrypt data with
      | Except.error _ => Except.error operationErrorMessage
      | Except.ok decrypted => Except.ok (textDecode decrypted) := by
  unfold decryptBody
  rw [hdata]

theorem decrypt_of_provider (providerDecrypt : List Nat → Except Unit (List Nat))
    (ciphertext : List Char) (data : List Nat)
    (hdata : base64ToArrayBuffer ciphertext = some data) :
    decryptWithPrivateKey providerDecrypt ciphertext =
      match providerDecrypt data with
      | Except.error _ => Except.error decryptionFailedMessage
      | Except.ok decrypted => Except.ok (textDecode decrypted) := by
  unfold decryptWithPrivateKey
  rw [decryptBody_some providerDecrypt ciphertext data hdata]
  rcases providerDecrypt data with _ | bytes <;> rfl

/-! ### Claim theorems -/

/-- Claim C1: the OAEP budget computation of `encryptWithPublicKey` equals the
reference formula `modulusLengthBits/8 - 2*digestSize(hash) - 2` with digest
sizes SHA-1:20, SHA-256:32, SHA-384:48, SHA-512:64 and a default of 32 for any
unknown hash name (for example "MD5"), always returning a value (the function
is total); in particular it yields 190 for 2048-bit keys with SHA-256, 62 for
1024 bits and 446 for 4096 bits. -/
theorem c1_budget_formula :
    (∀ (bits : Nat) (hash : String), maxMessageLength bits hash = maxPlaintextBytes bits hash)
    ∧ hashLengthBytes "SHA-1" = 20 ∧ hashLengthBytes "SHA-256" = 32
    ∧ hashLengthBytes "SHA-384" = 48 ∧ hashLengthBytes "SHA-512" = 64
    ∧ hashLengthBytes "MD5" = 32
    ∧ maxMessageLength 2048 "SHA-256" = 190
    ∧ maxMessageLength 1024 "SHA-256" = 62
    ∧ maxMessageLength 4096 "SHA-256" = 446 :=
  ⟨fun bits hash => rfl, by decide, by decide, by decide, by decide, by decide,
    by decide, by decide, by decide⟩

/-- Claim C2: when the UTF-8 byte length of the message exceeds the OAEP
budget of the key profile, encryption fails with the size error reporting the
budget and the actual byte length, and that error differs from the generic
encryption failure; when the size check passes and the provider encrypt call
fails, encryption fails with the single generic encryption error. -/
theorem c2_encrypt_error_paths (keyAlg : RsaHashedKeyAlgorithm)
    (providerEncrypt : Except Unit (List Nat)) (message : String) :
    (((utf8Bytes message).length : Int) >
        maxMessageLength keyAlg.modulusLength keyAlg.hashName →
      encryptWithPublicKey keyAlg providerEncrypt message
        = Except.error (tooLongMessage
            (maxMessageLength keyAlg.modulusLength keyAlg.hashName)
            (utf8Bytes message).length)
      ∧ tooLongMessage (maxMessageLength keyAlg.modulusLength keyAlg.hashName)
          (utf8Bytes message).length ≠ encryptionFailedMessage)
    ∧ (((utf8Bytes message).length : Int) ≤
        maxMessageLength keyAlg.modulusLength keyAlg.hashName →
      providerEncrypt = Except.error () →
      encryptWithPublicKey keyAlg providerEncrypt message
        = Except.error encryptionFailedMessage) := by
  constructor
  · intro hgt
    refine ⟨?_, tooLong_ne_generic _ _⟩
    rw [encryptWithPublicKey_def]
    have hbody : encryptBody keyAlg providerEncrypt message
        = Except.error (tooLongMessage
            (maxMessageLength keyAlg.modulusLength keyAlg.hashName)
            (utf8Bytes message).length) := by
      unfold encryptBody
      rw [if_pos hgt]
    rw [hbody]
    simp only [containsSub_tooLong]
    rfl
  · intro hle hpr
    rw [encryptWithPublicKey_def]
    have hbody : encryptBody keyAlg providerEncrypt message
        = Except.error operationErrorMessage := by
      unfold encryptBody
      rw [if_neg (not_lt.mpr hle), hpr]
    rw [hbody]
    have hfalse : containsSub ("Message is too long".data) operationErrorMessage.data
        = false := by decide
    simp [hfalse]

set_option maxRecDepth 10000 in
/-- Witness for C2: with a 2048-bit SHA-256 profile, a 191-byte message is
rejected with the size error, and a provider failure on a short message gives
the generic encryption error. -/
theorem c2_encrypt_error_paths_witness :
    encryptWithPublicKey ⟨2048, "SHA-256"⟩ (Except.error ()) longMessage
      = Except.error (tooLongMessage 190 191)
    ∧ encryptWithPublicKey ⟨2048, "SHA-256"⟩ (Except.error ()) "hi"
      = Except.error encryptionFailedMessage := by
  constructor
  · have h := (c2_encrypt_error_paths ⟨2048, "SHA-256"⟩ (Except.error ()) longMessage).1
      (by decide)
    have hx : maxMessageLength 2048 "SHA-256" = 190 := by decide
    have hy : (utf8Bytes longMessage).length = 191 := by decide
    rw [hx, hy] at h
    exact h.1
  · exact (c2_encrypt_error_paths ⟨2048, "SHA-256"⟩ (Except.error ()) "hi").2 (by decide) rfl

/-- Claim C3: every failure of `decryptWithPrivateKey` is the one generic
decryption error: any error the function returns equals it, and in particular
a provider decrypt failure (wrong key, corrupted ciphertext, padding check
failure) on well-formed ciphertext text yields exactly that error. -/
theorem c3_decrypt_single_error (providerDecrypt : List Nat → Except Unit (List Nat))
    (ciphertext : List Char) :
    (∀ e, decryptWithPrivateKey providerDecrypt ciphertext = Except.error e →
      e = decryptionFailedMessage)
    ∧ (∀ data, base64ToArrayBuffer ciphertext = some data →
        providerDecrypt data = Except.error () →
        decryptWithPrivateKey providerDecrypt ciphertext
          = Except.error decryptionFailedMessage) := by
  constructor
  · intro e he
    unfold decryptWithPrivateKey at he
    rcases hbody : decryptBody providerDecrypt ciphertext with msg | s <;> rw [hbody] at he
    · exact (Except.error.inj he).symm
    · exact Except.noConfusion he
  · intro data hdata hpd
    rw [decrypt_of_provider providerDecrypt ciphertext data hdata, hpd]

/-- Witness for C3: a provider failure on the one-block ciphertext "QQ=="
gives the generic decryption error. -/
theorem c3_decrypt_single_error_witness :
    decryptWithPrivateKey (fun _ => Except.error ()) ("QQ==".data)
      = Except.error decryptionFailedMessage :=
  (c3_decrypt_single_error (fun _ => Except.error ()) ("QQ==".data)).2 [65] (by decide) rfl

/-- Counterexample to C4: unframing does not recover the label.  Framing the
same DER bytes under the two different labels gives different PEM texts, yet
`pemToArrayBuffer` returns identical results for both, so no label can be
read off its output (the function returns only the DER bytes). -/
theorem c4_label_not_recovered :
    pemFrame ("PUBLIC KEY".data) [1, 2, 3] ≠ pemFrame ("PRIVATE KEY".data) [1, 2, 3]
    ∧ pemToArrayBuffer (pemFrame ("PUBLIC KEY".data) [1, 2, 3])
      = pemToArrayBuffer (pemFrame ("PRIVATE KEY".data) [1, 2, 3]) := by
  constructor
  · decide
  · decide

/-- Claim C4 as amended: for every DER byte sequence and either label,
unframing the framed PEM text returns exactly the DER bytes (the label is
stripped and not recovered). -/
theorem c4_roundtrip_der (label : List Char) (der : List Nat)
    (hlabel : label = "PUBLIC KEY".data ∨ label = "PRIVATE KEY".data)
    (hder : ∀ x ∈ der, x < 256) :
    pemToArrayBuffer (pemFrame label der) = some der := by
  rcases hlabel with h | h <;> subst h <;>
    exact pemFrame_unframe _ _ (by decide) (by decide) hder

/-- Witness for C4: the DER bytes 1,2,3 survive a frame/unframe round trip. -/
theorem c4_roundtrip_der_witness :
    pemToArrayBuffer (pemFrame ("PUBLIC KEY".data) [1, 2, 3]) = some [1, 2, 3] :=
  c4_roundtrip_der ("PUBLIC KEY".data) [1, 2, 3] (Or.inl rfl) (by decide)

/-- Claim C5: decoding the transport-safe text encoding of any byte sequence
returns exactly that byte sequence. -/
theorem c5_base64_roundtrip (b : List Nat) (hb : ∀ x ∈ b, x < 256) :
    base64ToArrayBuffer (arrayBufferToBase64 b) = some b :=
  atob_btoa b hb

/-- Witness for C5: the round trip on the bytes 0, 1, 255. -/
theorem c5_base64_roundtrip_witness :
    base64ToArrayBuffer (arrayBufferToBase64 [0, 1, 255]) = some [0, 1, 255] :=
  c5_base64_roundtrip [0, 1, 255] (by decide)

/-- Counterexample to C6: unframing the text "not a pem" does not fail at
all — after stripping (nothing matches the delimiter regexes) and removing
whitespace, "notapem" is accepted by the forgiving base64 decode and yields
five garbage bytes. -/
theorem c6_not_a_pem_succeeds :
    pemToArrayBuffer ("not a pem".data) = some [158, 139, 90, 165, 233] := by decide

/-- Claim C6 as amended: unframing "not a pem" succeeds (returns bytes), and
a PEM whose body text is corrupted with characters outside the base64
alphabet fails with the single decode error (`atob` failure), which is the
only error path of `pemToArrayBuffer`. -/
theorem c6_unframe_failure_modes :
    (pemToArrayBuffer ("not a pem".data)).isSome = true
    ∧ pemToArrayBuffer ("-----BEGIN PUBLIC KEY-----\n!!!!\n-----END PUBLIC KEY-----".data)
      = none := by
  constructor
  · decide
  · decide

/-- Counterexample to C7: a mislabeled PEM is not rejected.  A document
framed with the "PRIVATE KEY" label imports as a public key (and conversely)
whenever the provider accepts the DER: the label is never checked. -/
theorem c7_mislabeled_import_succeeds :
    importPublicKey (fun der => Except.ok der) (pemFrame ("PRIVATE KEY".data) [1, 2, 3])
      = Except.ok [1, 2, 3]
    ∧ importPrivateKey (fun der => Except.ok der) (pemFrame ("PUBLIC KEY".data) [1, 2, 3])
      = Except.ok [1, 2, 3] :=
  ⟨rfl, rfl⟩

/-- Claim C7 as amended: the PEM label is ignored on import; for any label
(nonempty, without dashes) both import functions hand the provider exactly
the framed DER bytes, so the key kind is determined solely by the DER as
interpreted by the provider. -/
theorem c7_label_ignored {α : Type} (providerImport : List Nat → Except Unit α)
    (label : List Char) (der : List Nat) (hl : label ≠ [])
    (hld : ∀ c ∈ label, c ≠ '-') (hder : ∀ x ∈ der, x < 256) :
    importPublicKey providerImport (pemFrame label der) = providerImport der
    ∧ importPrivateKey providerImport (pemFrame label der) = providerImport der := by
  unfold importPublicKey importPrivateKey
  rw [pemFrame_unframe label der hl hld hder]
  exact ⟨rfl, rfl⟩

/-- Witness for C7: a PEM labeled "PRIVATE KEY" taken through the public
key path hands the DER 9,8 to the provider unchanged. -/
theorem c7_label_ignored_witness :
    importPublicKey (fun der => Except.ok der) (pemFrame ("PRIVATE KEY".data) [9, 8])
      = Except.ok [9, 8] :=
  (c7_label_ignored (fun der => Except.ok der) ("PRIVATE KEY".data) [9, 8]
    (by decide) (by decide) (by decide)).1

/-- Counterexample to C8: bytes that are not valid UTF-8 do not make
decryption fail.  The byte 0xFF is invalid UTF-8, yet after a successful
provider decrypt the non-fatal `TextDecoder` turns it into U+FFFD and the
operation succeeds — there is no `InvalidUtf8Error` path. -/
theorem c8_lenient_utf8_counterexample :
    utf8Valid [255] = false
    ∧ decryptWithPrivateKey (fun _ => Except.ok [255]) ("QQ==".data)
      = Except.ok (String.mk [replChar]) := by
  constructor
  · decide
  · rfl

/-- Claim C8 as amended: after a successful provider decrypt the resulting
bytes are decoded with the lenient (non-fatal) UTF-8 decoder, which replaces
malformed subsequences with U+FFFD; the operation never fails because of
invalid UTF-8. -/
theorem c8_decrypt_utf8_lenient (providerDecrypt : List Nat → Except Unit (List Nat))
    (ciphertext : List Char) (data bytes : List Nat)
    (hdata : base64ToArrayBuffer ciphertext = some data)
    (hpd : providerDecrypt data = Except.ok bytes) :
    decryptWithPrivateKey providerDecrypt ciphertext = Except.ok (textDecode bytes) := by
  rw [decrypt_of_provider providerDecrypt ciphertext data hdata, hpd]

/-- Witness for C8: decrypting "QQ==" with a provider returning the invalid
UTF-8 byte 0xFF succeeds with the lossily decoded text. -/
theorem c8_decrypt_utf8_lenient_witness :
    decryptWithPrivateKey (fun _ => Except.ok [255]) ("QQ==".data)
      = Except.ok (textDecode [255]) :=
  c8_decrypt_utf8_lenient (fun _ => Except.ok [255]) ("QQ==".data) [65] [255]
    (by decide) rfl

/-- Counterexample to C9: a ciphertext that cannot be base64-decoded produces
exactly the same generic decryption error as a provider decrypt failure — the
decode failure is caught by the catch-all, so it is not a distinct error. -/
theorem c9_malformed_ct_same_error :
    decryptWithPrivateKey (fun _ => Except.ok []) ("!!!".data)
      = Except.error decryptionFailedMessage
    ∧ decryptWithPrivateKey (fun _ => Except.error ()) ("QQ==".data)
      = Except.error decryptionFailedMessage :=
  ⟨rfl, rfl⟩

/-- Claim C9 as amended: when the ciphertext text cannot be decoded from the
transport encoding, decryption fails with the same generic decryption error
as every other decrypt failure (no distinct malformed-encoding error reaches
the caller). -/
theorem c9_malformed_ct_generic (providerDecrypt : List Nat → Except Unit (List Nat))
    (ciphertext : List Char) (h : base64ToArrayBuffer ciphertext = none) :
    decryptWithPrivateKey providerDecrypt ciphertext
      = Except.error decryptionFailedMessage := by
  unfold decryptWithPrivateKey decryptBody
  rw [h]

/-- Witness for C9: the undecodable ciphertext "****" gives the generic
decryption error. -/
theorem c9_malformed_ct_generic_witness :
    decryptWithPrivateKey (fun _ => Except.ok [1]) ("****".data)
      = Except.error decryptionFailedMessage :=
  c9_malformed_ct_generic (fun _ => Except.ok [1]) ("****".data) (by decide)

/-- Counterexample to C10: whitespace inserted inside the BEGIN delimiter
changes the result.  The unmodified PEM unframes to the bytes 1,2,3, but
after inserting one space between the header dashes the BEGIN regex no
longer matches, the leftover dashes survive whitespace stripping, and the
base64 decode fails. -/
theorem c10_ws_in_delimiter_changes_result :
    pemToArrayBuffer ("-----BEGIN PUBLIC KEY-----\nAQID\n-----END PUBLIC KEY-----".data)
      = some [1, 2, 3]
    ∧ pemToArrayBuffer ("--- --BEGIN PUBLIC KEY-----\nAQID\n-----END PUBLIC KEY-----".data)
      = none := by
  constructor
  · decide
  · decide

/-- Claim C10 as amended: unframing is insensitive to line-ending style and
interior whitespace in the region between the delimiters: two documents with
the same delimiters whose interiors (free of dashes) agree after removing
all whitespace unframe to the same result. -/
theorem c10_interior_ws_insensitive (label mid1 mid2 : List Char)
    (hl : label ≠ []) (hld : ∀ c ∈ label, c ≠ '-')
    (h1 : ∀ c ∈ mid1, c ≠ '-') (h2 : ∀ c ∈ mid2, c ≠ '-')
    (hfil : mid1.filter (fun c => !(isJsWs c)) = mid2.filter (fun c => !(isJsWs c))) :
    pemToArrayBuffer (beginMarker label ++ (mid1 ++ endMarker label))
      = pemToArrayBuffer (beginMarker label ++ (mid2 ++ endMarker label)) := by
  rw [pem_unframe label mid1 hl hld h1, pem_unframe label mid2 hl hld h2, hfil]

/-- Witness for C10: rewrapping the body with Windows line endings, tabs and
extra spaces does not change the unframed bytes. -/
theorem c10_interior_ws_insensitive_witness :
    pemToArrayBuffer (beginMarker ("PUBLIC KEY".data)
        ++ ("\nAQID\n".data ++ endMarker ("PUBLIC KEY".data)))
      = pemToArrayBuffer (beginMarker ("PUBLIC KEY".data)
        ++ ("\r\n AQ\t\nID \r\n".data ++ endMarker ("PUBLIC KEY".data))) :=
  c10_interior_ws_insensitive ("PUBLIC KEY".data) ("\nAQID\n".data)
    ("\r\n AQ\t\nID \r\n".data) (by decide) (by decide) (by decide) (by decide)
    (by decide)

end RsaSpec

